import Mathlib

/-
Shallow embedding of src/prolog_text_parser.cpp.

The program stores ground Prolog-style facts (predicate name mapped to a
list of argument tuples), converts a fixed set of English sentence
patterns into facts, and answers a fixed set of English question
patterns by linear-scan lookup with "?" as the wildcard token.

Strings are modelled as Lean String (logically a list of Char); every
C++ helper (tolower, ispunct, stream tokenization, std::string::find,
substr) is re-implemented below over the character list, so that all
definitions are executable and match the C locale ASCII behaviour of the
source.  std::vector indexing in the sentence parsers is embedded as an
Option-returning access with a signed index, so the out-of-bounds reads
of the C++ (size_t underflow on words[i-1], read past the end on
words[i+4]) become a reachable error branch instead of undefined
behaviour.
-/

/-- ASCII tolower, as C `::tolower` behaves in the "C" locale on the
byte values the program feeds it. -/
def chLower (c : Char) : Char :=
  if 65 ≤ c.toNat ∧ c.toNat ≤ 90 then Char.ofNat (c.toNat + 32) else c

/-- `toLower` of the C++ (applied charwise by `std::transform`). -/
def strLower (s : String) : String := ⟨s.data.map chLower⟩

/-- C `ispunct` in the "C" locale: the four ASCII punctuation ranges. -/
def isPunct (c : Char) : Bool :=
  decide ((33 ≤ c.toNat ∧ c.toNat ≤ 47) ∨ (58 ≤ c.toNat ∧ c.toNat ≤ 64) ∨
    (91 ≤ c.toNat ∧ c.toNat ≤ 96) ∨ (123 ≤ c.toNat ∧ c.toNat ≤ 126))

/-- C `isspace` in the "C" locale (space, tab, newline, vertical tab,
form feed, carriage return), used by `operator>>` extraction. -/
def isWS (c : Char) : Bool :=
  decide (c = ' ' ∨ c = '\t' ∨ c = '\n' ∨ c = Char.ofNat 11 ∨
    c = Char.ofNat 12 ∨ c = '\r')

/-- The four characters trimmed from token ends by `TextParser::split`
(`" \t\n\r"`). -/
def isTrimC (c : Char) : Bool :=
  decide (c = ' ' ∨ c = '\t' ∨ c = '\n' ∨ c = '\r')

/-- `removePunctuation`: pop trailing punctuation characters. -/
def removePunct (s : String) : String :=
  ⟨(s.data.reverse.dropWhile isPunct).reverse⟩

/-- Trim of `" \t\n\r"` from both ends, as done per token inside
`TextParser::split`. -/
def trimStr (s : String) : String :=
  ⟨((s.data.dropWhile isTrimC).reverse.dropWhile isTrimC).reverse⟩

/-- Split a character list at every occurrence of the delimiter, keeping
empty pieces (they are filtered later, as the C++ drops empty tokens). -/
def splitChAux (d : Char) : List Char → List Char → List (List Char)
  | [], acc => [acc.reverse]
  | c :: rest, acc =>
      if c = d then acc.reverse :: splitChAux d rest []
      else splitChAux d rest (c :: acc)

/-- `TextParser::split(text, ' ')`: split on single spaces, trim each
piece, drop empty pieces. -/
def splitWords (text : String) : List String :=
  ((splitChAux ' ' text.data []).map (fun l => trimStr ⟨l⟩)).filter
    (fun t => t ≠ "")

/-- Whitespace tokenization, as repeated `stringstream >>` extraction:
maximal runs of non-whitespace characters. -/
def wsSplit : List Char → List Char → List (List Char)
  | [], acc => if acc = [] then [] else [acc.reverse]
  | c :: rest, acc =>
      if isWS c then
        (if acc = [] then wsSplit rest [] else acc.reverse :: wsSplit rest [])
      else wsSplit rest (c :: acc)

/-- Tokens produced by a `while (ss >> word)` loop. -/
def tokenize (s : String) : List String :=
  (wsSplit s.data []).map (fun l => ⟨l⟩)

/-- Boolean list-prefix test (used by the substring search below). -/
def isPre : List Char → List Char → Bool
  | [], _ => true
  | _ :: _, [] => false
  | a :: as, b :: bs => (a = b) && isPre as bs

/-- Core of `std::string::find`: first index `≥ i` where `pat` occurs as
a contiguous run of `l`. -/
def findSubAux : List Char → List Char → Nat → Option Nat
  | [], pat, i => if pat = [] then some i else none
  | c :: rest, pat, i =>
      if isPre pat (c :: rest) then some i else findSubAux rest pat (i + 1)

/-- `hay.find(pat)`, as `some` index or `none` for `npos`. -/
def findSub (hay pat : String) : Option Nat :=
  findSubAux hay.data pat.data 0

/-- `hay.find(pat, start)`. -/
def findSubFrom (hay pat : String) (start : Nat) : Option Nat :=
  (findSubAux (hay.data.drop start) pat.data 0).map (· + start)

/-- `hay.find(pat) != std::string::npos`. -/
def containsSub (hay pat : String) : Bool := (findSub hay pat).isSome

/-- `std::string::npos` on a 64-bit platform. -/
def npos : Nat := 18446744073709551615

/-- Adding a constant to a `find` result, with `size_t` wrap-around.  A
found position plus the small constants the code uses never wraps (the
position is at most the string length), while `npos + k` wraps to
`k - 1` exactly as the C++ does. -/
def addPos : Option Nat → Nat → Nat
  | some p, k => p + k
  | none, k => (npos + k) % (npos + 1)

/-- `s.substr(i)`.  Every embedded call site keeps `i ≤ s.length`, the
range where `substr` is defined. -/
def substrFrom (s : String) (i : Nat) : String := ⟨s.data.drop i⟩

/-- `s.substr(i, n)`. -/
def substrCnt (s : String) (i n : Nat) : String := ⟨(s.data.drop i).take n⟩

/-! ## PrologDatabase -/

/-- The fact store `map<string, vector<vector<string>>>`, as the total
function sending each (lower-cased) predicate key to its tuple list;
absent keys map to `[]` (every key `addFact` ever touches gets a
nonempty list, so this is faithful to the `std::map`). -/
abbrev Db := String → List (List String)

/-- The store at program start. -/
def emptyDb : Db := fun _ => []

/-- `PrologDatabase::addFact`: case-fold the predicate, append the
argument tuple (stored verbatim) to that key. -/
def addFact (db : Db) (pred : String) (args : List String) : Db :=
  fun k => if k = strLower pred then db k ++ [args] else db k

/-- One position of the match loop in `PrologDatabase::query`: the
pattern atom is the wildcard `"?"` or case-insensitively equal. -/
def argOk (p f : String) : Bool := (p == "?") || (strLower p == strLower f)

/-- The per-fact test of `PrologDatabase::query`: equal arity, and every
position passes `argOk`. -/
def matchArgs (pat fact : List String) : Bool :=
  (fact.length == pat.length) && ((pat.zip fact).all fun pf => argOk pf.1 pf.2)

/-- `PrologDatabase::query`, threading the store through explicitly
(the C++ method is non-const; the early return on an absent predicate is
the branch that keeps `facts[pred]` from inserting).  Returns the store
and the matching tuples in stored order. -/
def dbQueryS (db : Db) (pred : String) (args : List String) :
    Db × List (List String) :=
  let fs := db (strLower pred)
  if fs = [] then (db, []) else (db, fs.filter (fun f => matchArgs args f))

/-- The result list of `PrologDatabase::query`. -/
def dbQuery (db : Db) (pred : String) (args : List String) :
    List (List String) :=
  (dbQueryS db pred args).2

/-! ## TextParser -/

/-- Outcome of parsing one sentence: a single fact to insert, no fact,
or an out-of-bounds vector access (undefined behaviour in the C++). -/
inductive ParseResult where
  | fact (pred : String) (args : List String)
  | nofact
  | oob
deriving DecidableEq

/-- `words[i]` for a possibly negative index, as the C++ computes
`words[i-1]` on `size_t` (underflow) and `words[i+4]` (past the end):
out-of-range access returns `none`. -/
def atIdx (ws : List String) (i : Int) : Option String :=
  if i < 0 then none else ws.get? i.toNat

/-- Guard of the scan in `TextParser::parseRelationship`: token `i` is
`"is"`, `i+3` is in range, token `i+1` is `"the"` and token `i+3` is
`"of"` (short-circuit order as in the C++). -/
def relHit (ws : List String) (i : Nat) : Bool :=
  ((ws.get? i).map strLower == some "is") && decide (i + 3 < ws.length) &&
  ((ws.get? (i + 1)).map strLower == some "the") &&
  ((ws.get? (i + 3)).map strLower == some "of")

/-- `TextParser::parseRelationship`: first the `X is the R of Y` scan
(reading `words[i-1]`, `words[i+2]`, `words[i+4]`), then the generic
`subject relation object` triple on the first three tokens. -/
def parseRelationship (ws : List String) : ParseResult :=
  match (List.range ws.length).find? (relHit ws) with
  | some i =>
      match atIdx ws ((i : Int) - 1), atIdx ws ((i : Int) + 2),
            atIdx ws ((i : Int) + 4) with
      | some subj, some rel, some obj =>
          ParseResult.fact (removePunct (strLower rel))
            [removePunct (strLower subj), removePunct (strLower obj)]
      | _, _, _ => ParseResult.oob
  | none =>
      if 3 ≤ ws.length then
        ParseResult.fact (removePunct (strLower (ws.getD 1 "")))
          [removePunct (strLower (ws.getD 0 "")),
           removePunct (strLower (ws.getD 2 ""))]
      else ParseResult.nofact

/-- `TextParser::parseProperty`: at least three tokens whose second is
`"is"` yield `property(subject)` from tokens 2 and 0. -/
def parseProperty (ws : List String) : ParseResult :=
  if 3 ≤ ws.length ∧ strLower (ws.getD 1 "") = "is" then
    ParseResult.fact (removePunct (strLower (ws.getD 2 "")))
      [removePunct (strLower (ws.getD 0 ""))]
  else ParseResult.nofact

/-- Guard of the scan in `TextParser::parseLivesIn`: token `i` is
`"lives"`, `i+2` is in range, token `i+1` is `"in"`. -/
def livesHit (ws : List String) (i : Nat) : Bool :=
  ((ws.get? i).map strLower == some "lives") && decide (i + 2 < ws.length) &&
  ((ws.get? (i + 1)).map strLower == some "in")

/-- `TextParser::parseLivesIn`, reading `words[i-1]` and `words[i+2]`. -/
def parseLivesIn (ws : List String) : ParseResult :=
  match (List.range ws.length).find? (livesHit ws) with
  | some i =>
      match atIdx ws ((i : Int) - 1), atIdx ws ((i : Int) + 2) with
      | some subj, some loc =>
          ParseResult.fact "lives_in"
            [removePunct (strLower subj), removePunct (strLower loc)]
      | _, _ => ParseResult.oob
  | none => ParseResult.nofact

/-- `TextParser::parseText`: the ordered first-match classification of a
sentence. -/
def parseText (text : String) : ParseResult :=
  let ws := splitWords text
  if ws.isEmpty then ParseResult.nofact
  else
    let tl := strLower text
    if containsSub tl "lives in" then parseLivesIn ws
    else if containsSub tl "is the" && containsSub tl " of " then
      parseRelationship ws
    else if containsSub tl " is " then
      (if ws.length = 3 then parseProperty ws else parseRelationship ws)
    else if 3 ≤ ws.length then parseRelationship ws
    else ParseResult.nofact

/-- Interpreting one sentence against the store: at most one `addFact`;
`none` when the C++ performs an out-of-bounds read. -/
def interpret (db : Db) (text : String) : Option Db :=
  match parseText text with
  | ParseResult.fact p a => some (addFact db p a)
  | ParseResult.nofact => some db
  | ParseResult.oob => none

/-! ## QueryEngine -/

/-- The answer a call to `QueryEngine::processQuery` produces: a
`printResults` call (label, slot index, matching tuples), a yes, a
no-or-unknown, the could-not-understand diagnostic, or no output at all
(the fall-through paths that print nothing). -/
inductive QOut where
  | results (label : String) (idx : Nat) (rs : List (List String))
  | yes
  | noOrUnknown
  | couldNot
  | silent
deriving DecidableEq

/-- `QueryEngine::printResults`: the lines written for a result list. -/
def renderResults (label : String) (idx : Nat) (rs : List (List String)) :
    List String :=
  if rs = [] then ["Answer: No matches found."]
  else (label ++ ":") ::
    (rs.filterMap (fun r => r.get? idx)).map (fun v => "  - " ++ v)

/-- The lines a `QOut` prints. -/
def render : QOut → List String
  | QOut.results l i rs => renderResults l i rs
  | QOut.yes => ["Answer: Yes"]
  | QOut.noOrUnknown => ["Answer: No (or unknown)"]
  | QOut.couldNot => ["Could not understand query format."]
  | QOut.silent => []

/-- `QueryEngine::extractRelation`: the text between `"is the "` and the
next `" of"`, punctuation-stripped; `""` when the bounds are not found
(the `start != npos` test is on the value after `+ 7`). -/
def extractRelation (q : String) : String :=
  let start := addPos (findSub q "is the ") 7
  match findSubFrom q " of" start with
  | some e => if start = npos then "" else removePunct (substrCnt q start (e - start))
  | none => ""

/-- `QueryEngine::extractObject`: first `>>`-token of the tail starting
at `startPos`, punctuation-stripped (`""` when extraction fails). -/
def extractObject (q : String) (startPos : Nat) : String :=
  removePunct ((tokenize (substrFrom q startPos)).headD "")

/-- `QueryEngine::processQuery`: the ordered first-match classification
of a question, returning the (unchanged) store and the produced
answer. -/
def processQuery (db : Db) (question : String) : Db × QOut :=
  let ql := strLower question
  if containsSub ql "who is the" then
    match findSub ql "of " with
    | some pos =>
        let qr := dbQueryS db (extractRelation ql)
          ["?", extractObject ql (pos + 3)]
        (qr.1, QOut.results "Who" 0 qr.2)
    | none => (db, QOut.silent)
  else if containsSub ql "what does" then
    let rest := substrFrom ql (addPos (findSub ql "what does ") 10)
    match (tokenize rest).map removePunct with
    | subj :: rel :: _ =>
        let qr := dbQueryS db rel [subj, "?"]
        (qr.1, QOut.results "Answer" 1 qr.2)
    | _ => (db, QOut.silent)
  else if containsSub ql "where does" && containsSub ql "live" then
    let rest := substrFrom ql (addPos (findSub ql "where does ") 11)
    let subject := removePunct (strLower ((tokenize rest).headD ""))
    let qr := dbQueryS db "lives_in" [subject, "?"]
    (qr.1, QOut.results "Location" 1 qr.2)
  else if findSub ql "is " = some 0 then
    let ws := (tokenize ql).map removePunct
    if ws.length = 3 then
      let qr := dbQueryS db (ws.getD 2 "") [ws.getD 1 ""]
      (qr.1, if qr.2 = [] then QOut.noOrUnknown else QOut.yes)
    else if 4 ≤ ws.length then
      let qr := dbQueryS db (ws.getD 2 "") [ws.getD 1 "", ws.getD 3 ""]
      (qr.1, if qr.2 = [] then QOut.noOrUnknown else QOut.yes)
    else (db, QOut.silent)
  else (db, QOut.couldNot)

/-- The store of the round-trip scenario: the four statement facts plus
`parent(john, tom)`. -/
def demoDb : Db :=
  addFact (addFact (addFact (addFact (addFact emptyDb
    "parent" ["john", "mary"])
    "likes" ["john", "pizza"])
    "tall" ["alice"])
    "lives_in" ["john", "paris"])
    "parent" ["john", "tom"]

/-! ## Helper lemmas -/

lemma dbQueryS_fst (db : Db) (p : String) (a : List String) :
    (dbQueryS db p a).1 = db := by
  unfold dbQueryS
  dsimp only
  split <;> rfl

lemma dbQuery_eq_filter (db : Db) (p : String) (a : List String) :
    dbQuery db p a = (db (strLower p)).filter (fun f => matchArgs a f) := by
  unfold dbQuery dbQueryS
  dsimp only
  split
  · rename_i h
    rw [h]
    rfl
  · rfl

lemma matchArgs_length {pat fact : List String}
    (h : matchArgs pat fact = true) : fact.length = pat.length := by
  unfold matchArgs at h
  rw [Bool.and_eq_true] at h
  exact beq_iff_eq.mp h.1

lemma argOk_refl (a : String) : argOk a a = true := by
  unfold argOk
  simp

lemma zipSelf_all (A : List String) :
    ((A.zip A).all fun pf => argOk pf.1 pf.2) = true := by
  induction A with
  | nil => rfl
  | cons a t ih => simp [List.zip_cons_cons, argOk_refl, ih]

lemma matchArgs_refl (A : List String) : matchArgs A A = true := by
  unfold matchArgs
  simp [zipSelf_all]

lemma replicate_zip_all (n : Nat) (f : List String) :
    (((List.replicate n "?").zip f).all fun pf => argOk pf.1 pf.2) = true := by
  induction n generalizing f with
  | zero => rfl
  | succ m ih =>
    cases f with
    | nil => rfl
    | cons b bs =>
      rw [List.replicate_succ, List.zip_cons_cons, List.all_cons, ih bs,
        Bool.and_true]
      rfl

lemma matchArgs_replicate (n : Nat) (f : List String) :
    matchArgs (List.replicate n "?") f = (f.length == n) := by
  unfold matchArgs
  rw [List.length_replicate, replicate_zip_all, Bool.and_true]

lemma renderResults_ne_nil (l : String) (i : Nat) (rs : List (List String)) :
    renderResults l i rs ≠ [] := by
  unfold renderResults
  split <;> simp

/-! ## Claim theorems -/

/-- C1: interpreting each of the four demo statement forms inserts
exactly the stated fact — the store after interpretation is precisely
`addFact` of the stated predicate and arguments, which appends that one
tuple and changes nothing else. -/
theorem c1_statement_roundtrip (db : Db) :
    interpret db "John is the parent of Mary" =
      some (addFact db "parent" ["john", "mary"]) ∧
    interpret db "John likes pizza" =
      some (addFact db "likes" ["john", "pizza"]) ∧
    interpret db "Alice is tall" = some (addFact db "tall" ["alice"]) ∧
    interpret db "John lives in Paris" =
      some (addFact db "lives_in" ["john", "paris"]) := by
  refine ⟨?_, ?_, ?_, ?_⟩
  · unfold interpret
    rw [show parseText "John is the parent of Mary" =
      ParseResult.fact "parent" ["john", "mary"] from by decide]
  · unfold interpret
    rw [show parseText "John likes pizza" =
      ParseResult.fact "likes" ["john", "pizza"] from by decide]
  · unfold interpret
    rw [show parseText "Alice is tall" =
      ParseResult.fact "tall" ["alice"] from by decide]
  · unfold interpret
    rw [show parseText "John lives in Paris" =
      ParseResult.fact "lives_in" ["john", "paris"] from by decide]

/-- C3: the query scan is exactly a filter of the stored tuple list by
the arity-and-positions test, so a fact of mismatched arity is skipped
while the scan continues over all remaining facts (nothing is
truncated), and every returned tuple has the arity of the pattern. -/
theorem c3_arity_filter (db : Db) (P : String) (args : List String) :
    dbQuery db P args = (db (strLower P)).filter (fun f => matchArgs args f) ∧
    ∀ f ∈ dbQuery db P args, f.length = args.length := by
  refine ⟨dbQuery_eq_filter db P args, ?_⟩
  intro f hf
  rw [dbQuery_eq_filter] at hf
  exact matchArgs_length (List.mem_filter.mp hf).2

/-- C4: after `addFact P A`, a wildcard-free `query` with the same
arguments under any predicate name that case-folds to the same key
returns a list containing `A`. -/
theorem c4_addFact_query_roundtrip (db : Db) (P Pq : String)
    (A : List String) (hP : strLower Pq = strLower P) (_hA : "?" ∉ A) :
    A ∈ dbQuery (addFact db P A) Pq A := by
  rw [dbQuery_eq_filter]
  have hkey : (addFact db P A) (strLower Pq) = db (strLower Pq) ++ [A] := by
    unfold addFact
    rw [hP]
    simp
  rw [hkey]
  refine List.mem_filter.mpr ⟨?_, matchArgs_refl A⟩
  simp

/-- Witness for C4 at a concrete store, predicate, casing and tuple. -/
theorem c4_addFact_query_roundtrip_witness :
    strLower "TALL" = strLower "Tall" ∧
    ("?" : String) ∉ (["mary"] : List String) ∧
    ["mary"] ∈ dbQuery (addFact emptyDb "Tall" ["mary"]) "TALL" ["mary"] :=
  ⟨by decide, by decide,
    c4_addFact_query_roundtrip emptyDb "Tall" "TALL" ["mary"]
      (by decide) (by decide)⟩

/-- C5: a query whose every position is the wildcard `"?"` returns
exactly the stored tuples of that arity, in stored (insertion) order —
it is the filter of the stored list by the arity test alone. -/
theorem c5_wildcard_query (db : Db) (P : String) (n : Nat) :
    dbQuery db P (List.replicate n "?") =
      (db (strLower P)).filter (fun f => f.length == n) := by
  rw [dbQuery_eq_filter]
  apply List.filter_congr
  intro f _
  exact matchArgs_replicate n f

/-- C9: a predicate absent from the store (its case-folded key holds no
facts) makes `query` return the empty list; the embedding is total, so
no failure is possible. -/
theorem c9_unknown_predicate (db : Db) (P : String) (args : List String)
    (h : db (strLower P) = []) : dbQuery db P args = [] := by
  rw [dbQuery_eq_filter, h]
  rfl

/-- Witness for C9: querying the empty store. -/
theorem c9_unknown_predicate_witness :
    emptyDb (strLower "ancestor") = [] ∧
    dbQuery emptyDb "ancestor" ["x", "y"] = [] :=
  ⟨rfl, c9_unknown_predicate emptyDb "ancestor" ["x", "y"] rfl⟩

/-- C7: the out-of-bounds token reads of the statement parsers are
reachable: a sentence whose `"is"` matches at token 0 underflows the
`words[i-1]` read, a sentence ending right after `"of"` reads
`words[i+4]` one past the end (only `i+3 < size` is checked), and a
sentence whose `"lives"` is the first token underflows `words[i-1]` in
the location parser.  In the embedding every such access is an `Option`
read and each input below reaches the error branch. -/
theorem c7_oob_reachable :
    parseText "is the boss of ann" = ParseResult.oob ∧
    parseText "Bob is the parent of" = ParseResult.oob ∧
    parseText "lives in Paris" = ParseResult.oob := by decide

/-- C8: questions are read-only — `processQuery` returns the store it
was given — and the only mutating operation, `addFact`, appends exactly
one tuple at the end of one case-folded predicate key and leaves every
other key untouched; interpreting a statement performs at most one such
`addFact` (when it does not hit the out-of-bounds branch). -/
theorem c8_frame_properties :
    (∀ (db : Db) (q : String), (processQuery db q).1 = db) ∧
    (∀ (db : Db) (p : String) (a : List String),
      addFact db p a (strLower p) = db (strLower p) ++ [a] ∧
      ∀ k, k ≠ strLower p → addFact db p a k = db k) ∧
    (∀ (db : Db) (s : String) (d : Db), interpret db s = some d →
      d = db ∨ ∃ p a, d = addFact db p a) := by
  refine ⟨?_, ?_, ?_⟩
  · intro db q
    unfold processQuery
    dsimp only
    repeat' split
    all_goals simp [dbQueryS_fst]
  · intro db p a
    constructor
    · unfold addFact
      simp
    · intro k hk
      unfold addFact
      rw [if_neg hk]
  · intro db s d h
    unfold interpret at h
    cases hp : parseText s <;> rw [hp] at h
    · rename_i p a
      right
      exact ⟨p, a, (Option.some_inj.mp h).symm⟩
    · left
      exact (Option.some_inj.mp h).symm
    · exact absurd h (by simp)

/-- C2 counterexample: on the round-trip store, the question
`"Is John the parent of Tom?"` is answered `"No (or unknown)"`, not
`"Yes"` as the claim states — the yes-no pattern takes relation = third
token (`"the"`) and object = fourth token (`"parent"`), querying the
absent predicate `the`. -/
theorem c2_counterexample :
    (processQuery demoDb "Is John the parent of Tom?").2 =
      QOut.noOrUnknown ∧
    (processQuery demoDb "Is John the parent of Tom?").2 ≠ QOut.yes := by
  decide

/-- C2 (amended): on the round-trip store, the who-question answers
`john`, `"Is John the parent of Tom?"` answers `"No (or unknown)"`
(the yes-no pattern queries `the(john, parent)`), `"Is Alice tall?"`
answers Yes, the where-question answers `paris`, and `"Is Mary tall?"`
answers `"No (or unknown)"`. -/
theorem c2_question_roundtrip_amended :
    render (processQuery demoDb "Who is the parent of Mary?").2 =
      ["Who:", "  - john"] ∧
    render (processQuery demoDb "Is John the parent of Tom?").2 =
      ["Answer: No (or unknown)"] ∧
    render (processQuery demoDb "Is Alice tall?").2 = ["Answer: Yes"] ∧
    render (processQuery demoDb "Where does John live?").2 =
      ["Location:", "  - paris"] ∧
    render (processQuery demoDb "Is Mary tall?").2 =
      ["Answer: No (or unknown)"] := by decide

lemma isPre_trans (p1 : List Char) : ∀ (p2 l : List Char),
    isPre p1 p2 = true → isPre p2 l = true → isPre p1 l = true := by
  induction p1 with
  | nil => intro p2 l _ _; rfl
  | cons a as ih =>
    intro p2 l h1 h2
    cases p2 with
    | nil => simp [isPre] at h1
    | cons b bs =>
      cases l with
      | nil => simp [isPre] at h2
      | cons c cs =>
        unfold isPre at h1 h2 ⊢
        rw [Bool.and_eq_true] at h1 h2 ⊢
        obtain ⟨hab, h1t⟩ := h1
        obtain ⟨hbc, h2t⟩ := h2
        refine ⟨?_, ih bs cs h1t h2t⟩
        have hab2 : a = b := of_decide_eq_true hab
        have hbc2 : b = c := of_decide_eq_true hbc
        subst hab2
        subst hbc2
        simp

lemma findSubAux_mono (p1 p2 : List Char) (hp : isPre p1 p2 = true) :
    ∀ (l : List Char) (i : Nat), (findSubAux l p2 i).isSome = true →
      (findSubAux l p1 i).isSome = true := by
  intro l
  induction l with
  | nil =>
    intro i h
    unfold findSubAux at h ⊢
    split at h
    · rename_i h2
      cases p1 with
      | nil => simp
      | cons a as =>
        rw [h2] at hp
        simp [isPre] at hp
    · simp at h
  | cons c rest ih =>
    intro i h
    unfold findSubAux at h ⊢
    by_cases hpre2 : isPre p2 (c :: rest) = true
    · rw [if_pos (isPre_trans p1 p2 (c :: rest) hp hpre2)]
      rfl
    · rw [if_neg hpre2] at h
      by_cases hpre1 : isPre p1 (c :: rest) = true
      · rw [if_pos hpre1]
        rfl
      · rw [if_neg hpre1]
        exact ih (i + 1) h

lemma contains_what_does (ql : String) (p : Nat)
    (hp : findSub ql "what does " = some p) :
    containsSub ql "what does" = true := by
  unfold containsSub findSub
  unfold findSub at hp
  refine findSubAux_mono ("what does").data ("what does ").data (by decide)
    ql.data 0 ?_
  rw [hp]
  rfl

/-- A concrete store for the C10 counterexample. -/
def c10Db : Db :=
  addFact (addFact emptyDb "boss" ["carl", "ann"]) "like" ["bob", "pizza"]

/-- C10 counterexample: the question
`"Who is the boss of Ann what does Bob like"` contains `"what does"`,
and the what-does reading dictated by the claim (subject `bob`, relation
`like`, query `like(bob, ?)`, render second slots) would print
`pizza` from the stored `like(bob, pizza)`; but the code classifies the
question by its earlier `"who is the"` pattern and prints `carl` from
`boss(?, ann)` instead. -/
theorem c10_counterexample :
    containsSub (strLower "Who is the boss of Ann what does Bob like")
      "what does" = true ∧
    render (processQuery c10Db
      "Who is the boss of Ann what does Bob like").2 = ["Who:", "  - carl"] ∧
    render (processQuery c10Db
      "Who is the boss of Ann what does Bob like").2 ≠
      ["Answer:", "  - pizza"] := by decide

/-- C10 (amended): for a question that contains `"what does "` (with its
trailing space, first occurrence at `p`) and does not contain
`"who is the"`, the engine takes the case-folded remainder after that
occurrence, whitespace-tokenizes it stripping trailing punctuation per
token, and when at least two tokens result queries
`relation(subject, "?")` with subject = token 0 and relation = token 1,
rendering each matching second slot; with fewer than two tokens it
prints nothing. -/
theorem c10_what_does_amended (db : Db) (q : String) (p : Nat)
    (hwho : containsSub (strLower q) "who is the" = false)
    (hp : findSub (strLower q) "what does " = some p) :
    (processQuery db q).2 =
      match (tokenize (substrFrom (strLower q) (p + 10))).map removePunct with
      | subj :: rel :: _ => QOut.results "Answer" 1 (dbQuery db rel [subj, "?"])
      | _ => QOut.silent := by
  have h2 : containsSub (strLower q) "what does" = true :=
    contains_what_does (strLower q) p hp
  rcases h3 : (tokenize (substrFrom (strLower q) (p + 10))).map removePunct
    with _ | ⟨a, _ | ⟨b, t⟩⟩ <;>
    simp [processQuery, hwho, h2, hp, addPos, h3, dbQuery]

/-- Witness for C10 at a concrete store and question. -/
theorem c10_what_does_witness :
    containsSub (strLower "What does Bob like?") "who is the" = false ∧
    findSub (strLower "What does Bob like?") "what does " = some 0 ∧
    (processQuery (addFact emptyDb "like" ["bob", "pizza"])
      "What does Bob like?").2 =
      QOut.results "Answer" 1 [["bob", "pizza"]] := by
  refine ⟨by decide, by decide, ?_⟩
  rw [c10_what_does_amended (addFact emptyDb "like" ["bob", "pizza"])
    "What does Bob like?" 0 (by decide) (by decide)]
  decide

lemma render_yesno_ne (c : Prop) [Decidable c] :
    render (if c then QOut.noOrUnknown else QOut.yes) ≠ [] := by
  split <;> simp [render]

/-- The three partial-match situations in which `processQuery` prints
nothing at all: a `"who is the"` question with no `"of "`; a
`"what does"` question whose remainder tokenizes to fewer than two
tokens; an `"is "`-initial question with fewer than three tokens. -/
def silentQ (ql : String) : Prop :=
  (containsSub ql "who is the" = true ∧ findSub ql "of " = none) ∨
  (containsSub ql "who is the" = false ∧
    containsSub ql "what does" = true ∧
    ((tokenize (substrFrom ql (addPos (findSub ql "what does ") 10))).map
      removePunct).length ≤ 1) ∨
  (containsSub ql "who is the" = false ∧
    containsSub ql "what does" = false ∧
    (containsSub ql "where does" && containsSub ql "live") = false ∧
    findSub ql "is " = some 0 ∧
    ((tokenize ql).map removePunct).length ≤ 2)

/-- C6 counterexample: the question `"Who is the parent?"` matches the
`"who is the"` pattern but contains no `"of "`, so the engine falls
through and prints nothing — silently empty output, which the claim
rules out. -/
theorem c6_counterexample :
    (processQuery emptyDb "Who is the parent?").2 = QOut.silent ∧
    render (processQuery emptyDb "Who is the parent?").2 = [] := by decide

/-- C6 (amended): for every store and question, processing prints
nothing exactly in the three partial-match situations of `silentQ`
(who-is-the without `"of "`, what-does with fewer than two remainder
tokens, is-initial with fewer than three tokens); every other question
yields non-empty output — a labeled slot list, the no-matches message, a
Yes, a No-or-unknown, or the could-not-understand diagnostic. -/
theorem c6_rendering_totality_amended (db : Db) (q : String) :
    render (processQuery db q).2 = [] ↔ silentQ (strLower q) := by
  cases h1 : containsSub (strLower q) "who is the" with
  | true =>
    cases h2 : findSub (strLower q) "of " with
    | none => simp [processQuery, silentQ, h1, h2, render]
    | some pos =>
      simp [processQuery, silentQ, h1, h2, render, renderResults_ne_nil]
  | false =>
    cases h2 : containsSub (strLower q) "what does" with
    | true =>
      rcases h3 : (tokenize (substrFrom (strLower q)
          (addPos (findSub (strLower q) "what does ") 10))).map removePunct
        with _ | ⟨a, _ | ⟨b, t⟩⟩ <;>
        simp [processQuery, silentQ, h1, h2, h3, render, renderResults_ne_nil]
    | false =>
      cases h3 : containsSub (strLower q) "where does" &&
          containsSub (strLower q) "live" with
      | true =>
        simp [processQuery, silentQ, h1, h2, h3, render, renderResults_ne_nil]
      | false =>
        by_cases h4 : findSub (strLower q) "is " = some 0
        · by_cases h5 : (tokenize (strLower q)).length = 3
          · simp [processQuery, silentQ, h1, h2, h3, h4, h5, render_yesno_ne]
          · by_cases h6 : 4 ≤ (tokenize (strLower q)).length
            · simp [processQuery, silentQ, h1, h2, h3, h4, h5, h6,
                render_yesno_ne]
              omega
            · simp [processQuery, silentQ, h1, h2, h3, h4, h5, h6, render]
              omega
        · simp [processQuery, silentQ, h1, h2, h3, h4, render]
